import Mathlib

/-!
Verification of the sc-controller DualShock 4 / DualSense driver modules
(scc/drivers/ds4drv.py and scc/drivers/ds5drv.py).

Shallow-embedding conventions: Python bytes / bytearray values are List Nat
(one entry per byte), Python unbounded ints are Nat or Int, Python floats
are modelled with exact rationals wherever every operation the code performs
is exact at the stated inputs or the stated property is insensitive to
final-ulp rounding, and with real numbers where the code uses trigonometry.
Python's int(x) truncates toward zero.
-/

namespace SCC

/-- Modelled from the spec: the shared normalization bound STICK_PAD_MIN
comes from scc.constants, which is not one of the two driver modules.  The
spec describes stick and pad axis positions as signed integers over a shared
normalized range, taken here as the signed 16-bit range. -/
def STICK_PAD_MIN : Int := -32768

/-- Modelled from the spec: upper end of the shared normalized range from
scc.constants (signed 16-bit range). -/
def STICK_PAD_MAX : Int := 32767

/-- Modelled from the spec: STICK_PAD_RES is the width of the shared
normalized range, the difference of the two bounds. -/
def STICK_PAD_RES : Int := STICK_PAD_MAX - STICK_PAD_MIN

namespace SCButtons

/-- Modelled from the spec: the SCButtons flag enumeration lives in
scc.constants, outside the two driver modules.  Each named button is a
distinct single bit of the shared button bitmask. -/
def RPADTOUCH : Nat := 2 ^ 28

def LPADTOUCH : Nat := 2 ^ 27

def RPAD : Nat := 2 ^ 26

def LPAD : Nat := 2 ^ 25

def START : Nat := 2 ^ 22

def C : Nat := 2 ^ 21

def BACK : Nat := 2 ^ 20

def A : Nat := 2 ^ 15

def X : Nat := 2 ^ 14

def B : Nat := 2 ^ 13

def Y : Nat := 2 ^ 12

def LB : Nat := 2 ^ 11

def RB : Nat := 2 ^ 10

def LT : Nat := 2 ^ 9

def RT : Nat := 2 ^ 8

def CPADTOUCH : Nat := 2 ^ 2

def CPADPRESS : Nat := 2 ^ 1

def STICKPRESS : Nat := 2 ^ 0

end SCButtons

/-! ## CRC-32 framing (DS5HidRawController._prepare_buffer_crc)

The code calls zlib.crc32, the standard reflected CRC-32 with polynomial
0xEDB88320 and pre/post complement, continued from a previous value. -/

def CRC32_POLY : Nat := 0xEDB88320

/-- One reflected CRC-32 shift step on the running remainder. -/
def crc32_bit (c : Nat) : Nat := if c % 2 = 1 then (c >>> 1) ^^^ CRC32_POLY else c >>> 1

/-- Feed one input byte into the raw (pre/post-complemented) CRC-32 state. -/
def crc32_byte (c b : Nat) : Nat := crc32_bit^[8] (c ^^^ (b % 256))

def crc32_raw (data : List Nat) (c : Nat) : Nat := data.foldl crc32_byte c

/-- Model of zlib.crc32(data, value). -/
def crc32 (data : List Nat) (value : Nat) : Nat :=
  crc32_raw data (value ^^^ 0xFFFFFFFF) ^^^ 0xFFFFFFFF

/- Sanity check against the reference value printed by the module's own
debugging helper: zlib.crc32 of the ASCII string hello-world. -/
set_option maxRecDepth 8000 in
example :
    crc32 [0x68, 0x65, 0x6c, 0x6c, 0x6f, 0x2d, 0x77, 0x6f, 0x72, 0x6c, 0x64] 0
      = 0xb1d4025b := by decide

/-- Leading byte prefixed to output reports for CRC purposes (BT_CRC32_HEAD). -/
def BT_CRC32_HEAD : List Nat := [0xA2]

/-- DS5HidRawController._prepare_buffer_crc: chain zlib.crc32 over the
one-byte header then bytes 0-73 of the buffer, and store the result
little-endian into bytes 74-77. -/
def prepare_buffer_crc (buf : List Nat) : List Nat :=
  let calcCrc32h := crc32 BT_CRC32_HEAD 0 &&& 0xFFFFFFFF
  let calcCrc32 := crc32 (buf.take 74) calcCrc32h &&& 0xFFFFFFFF
  ((((buf.set 74 (calcCrc32 &&& 0xFF)).set 75 ((calcCrc32 >>> 8) &&& 0xFF)).set 76
      ((calcCrc32 >>> 16) &&& 0xFF)).set 77 ((calcCrc32 >>> 24) &&& 0xFF))

theorem crc32_bit_lt {c : Nat} (h : c < 2 ^ 32) : crc32_bit c < 2 ^ 32 := by
  have h1 : c >>> 1 < 2 ^ 32 := by
    rw [Nat.shiftRight_eq_div_pow]
    exact Nat.lt_of_le_of_lt (Nat.div_le_self c (2 ^ 1)) h
  unfold crc32_bit
  split
  · exact Nat.xor_lt_two_pow h1 (by norm_num [CRC32_POLY])
  · exact h1

theorem crc32_bit_iter_lt (n : Nat) {c : Nat} (h : c < 2 ^ 32) :
    crc32_bit^[n] c < 2 ^ 32 := by
  induction n generalizing c with
  | zero => exact h
  | succ n ih => rw [Function.iterate_succ_apply]; exact ih (crc32_bit_lt h)

theorem crc32_byte_lt {c : Nat} (b : Nat) (h : c < 2 ^ 32) : crc32_byte c b < 2 ^ 32 := by
  unfold crc32_byte
  exact crc32_bit_iter_lt 8
    (Nat.xor_lt_two_pow h (Nat.lt_of_lt_of_le (Nat.mod_lt b (by norm_num)) (by norm_num)))

theorem crc32_raw_lt (data : List Nat) {c : Nat} (h : c < 2 ^ 32) :
    crc32_raw data c < 2 ^ 32 := by
  induction data generalizing c with
  | nil => exact h
  | cons b rest ih => exact ih (crc32_byte_lt b h)

theorem crc32_lt (data : List Nat) {v : Nat} (h : v < 2 ^ 32) : crc32 data v < 2 ^ 32 := by
  unfold crc32
  exact Nat.xor_lt_two_pow (crc32_raw_lt data (Nat.xor_lt_two_pow h (by norm_num)))
    (by norm_num)

/-- Chaining zlib.crc32 calls computes the CRC-32 of the concatenation. -/
theorem crc32_append (a b : List Nat) (v : Nat) :
    crc32 b (crc32 a v) = crc32 (a ++ b) v := by
  unfold crc32 crc32_raw
  rw [Nat.xor_cancel_right, List.foldl_append]

theorem crc32_mask {data : List Nat} {v : Nat} (h : v < 2 ^ 32) :
    crc32 data v &&& 0xFFFFFFFF = crc32 data v := by
  have h2 : crc32 data v < 2 ^ 32 := crc32_lt data h
  calc crc32 data v &&& 0xFFFFFFFF = crc32 data v &&& (2 ^ 32 - 1) := by norm_num
    _ = crc32 data v := Nat.and_pow_two_sub_one_of_lt_two_pow h2

/-- Structural form of prepare_buffer_crc on a 78-byte buffer: the first 74
bytes survive and the four CRC bytes of the header-prefixed body land at the
end. -/
theorem prepare_buffer_crc_eq (buf : List Nat) (h : buf.length = 78) :
    prepare_buffer_crc buf =
      buf.take 74 ++ [crc32 (0xA2 :: buf.take 74) 0 &&& 0xFF,
        (crc32 (0xA2 :: buf.take 74) 0 >>> 8) &&& 0xFF,
        (crc32 (0xA2 :: buf.take 74) 0 >>> 16) &&& 0xFF,
        (crc32 (0xA2 :: buf.take 74) 0 >>> 24) &&& 0xFF] := by
  obtain ⟨t, d, rfl, ht, hd⟩ :
      ∃ t d, buf = t ++ d ∧ t.length = 74 ∧ d.length = 4 :=
    ⟨buf.take 74, buf.drop 74, (List.take_append_drop 74 buf).symm,
      by simp [h], by simp [h]⟩
  have htake : (t ++ d).take 74 = t := by
    rw [List.take_append_of_le_length (by omega), ← ht, List.take_length]
  have hC : crc32 t (crc32 BT_CRC32_HEAD 0 &&& 0xFFFFFFFF) &&& 0xFFFFFFFF
      = crc32 (0xA2 :: t) 0 := by
    rw [@crc32_mask BT_CRC32_HEAD 0 (by norm_num), crc32_append,
      @crc32_mask (BT_CRC32_HEAD ++ t) 0 (by norm_num)]
    rfl
  rcases d with _ | ⟨a, d⟩; · simp at hd
  rcases d with _ | ⟨b, d⟩; · simp at hd
  rcases d with _ | ⟨c, d⟩; · simp at hd
  rcases d with _ | ⟨e, d⟩; · simp at hd
  rcases d with _ | ⟨f, d⟩
  swap; · simp at hd
  unfold prepare_buffer_crc
  simp only [htake, hC]
  rw [List.set_append_right _ _ (by omega), List.set_append_right _ _ (by omega),
    List.set_append_right _ _ (by omega), List.set_append_right _ _ (by omega), ht]
  norm_num

/-- C1: for every 78-byte buffer, prepare_buffer_crc writes into bytes 74-77
the little-endian CRC-32 of the one-byte header 0xA2 concatenated with bytes
0-73 of the buffer, leaves bytes 0-73 unchanged, and running it a second
time on the result changes nothing (idempotence). -/
theorem C1_prepare_buffer_crc (buf : List Nat) (h : buf.length = 78) :
    (prepare_buffer_crc buf).take 74 = buf.take 74 ∧
    ((prepare_buffer_crc buf).getD 74 0 = crc32 (0xA2 :: buf.take 74) 0 &&& 0xFF ∧
      (prepare_buffer_crc buf).getD 75 0 = (crc32 (0xA2 :: buf.take 74) 0 >>> 8) &&& 0xFF ∧
      (prepare_buffer_crc buf).getD 76 0 = (crc32 (0xA2 :: buf.take 74) 0 >>> 16) &&& 0xFF ∧
      (prepare_buffer_crc buf).getD 77 0 = (crc32 (0xA2 :: buf.take 74) 0 >>> 24) &&& 0xFF) ∧
    prepare_buffer_crc (prepare_buffer_crc buf) = prepare_buffer_crc buf := by
  have hlen74 : (buf.take 74).length = 74 := by simp [h]
  have heq := prepare_buffer_crc_eq buf h
  have hlen : (prepare_buffer_crc buf).length = 78 := by
    rw [heq]; simp [hlen74]
  have htake : (prepare_buffer_crc buf).take 74 = buf.take 74 := by
    rw [heq, List.take_append_of_le_length hlen74.ge]
    exact List.take_of_length_le hlen74.le
  refine ⟨htake, ⟨?_, ?_, ?_, ?_⟩, ?_⟩
  · rw [heq, List.getD_eq_getElem?_getD, List.getElem?_append_right (by omega), hlen74]
    rfl
  · rw [heq, List.getD_eq_getElem?_getD, List.getElem?_append_right (by omega), hlen74]
    rfl
  · rw [heq, List.getD_eq_getElem?_getD, List.getElem?_append_right (by omega), hlen74]
    rfl
  · rw [heq, List.getD_eq_getElem?_getD, List.getElem?_append_right (by omega), hlen74]
    rfl
  · rw [prepare_buffer_crc_eq (prepare_buffer_crc buf) hlen, htake, heq]

/-- Witness for C1 at the all-zero 78-byte buffer. -/
theorem C1_prepare_buffer_crc_witness :
    (List.replicate 78 (0 : Nat)).length = 78 ∧
    ((prepare_buffer_crc (List.replicate 78 (0 : Nat))).take 74
        = (List.replicate 78 (0 : Nat)).take 74 ∧
      ((prepare_buffer_crc (List.replicate 78 (0 : Nat))).getD 74 0
          = crc32 (0xA2 :: (List.replicate 78 (0 : Nat)).take 74) 0 &&& 0xFF ∧
        (prepare_buffer_crc (List.replicate 78 (0 : Nat))).getD 75 0
          = (crc32 (0xA2 :: (List.replicate 78 (0 : Nat)).take 74) 0 >>> 8) &&& 0xFF ∧
        (prepare_buffer_crc (List.replicate 78 (0 : Nat))).getD 76 0
          = (crc32 (0xA2 :: (List.replicate 78 (0 : Nat)).take 74) 0 >>> 16) &&& 0xFF ∧
        (prepare_buffer_crc (List.replicate 78 (0 : Nat))).getD 77 0
          = (crc32 (0xA2 :: (List.replicate 78 (0 : Nat)).take 74) 0 >>> 24) &&& 0xFF) ∧
      prepare_buffer_crc (prepare_buffer_crc (List.replicate 78 (0 : Nat)))
        = prepare_buffer_crc (List.replicate 78 (0 : Nat))) :=
  ⟨by simp, C1_prepare_buffer_crc _ (by simp)⟩

/-! ## Stick axis scaling (DS5HidRawController._stick_axis_scale)

Every float operation this function performs is exact or rounds once after
an exact rational value (subtraction of small integers, one division by 127
or 128, halving, multiply by the range width, add the range base); the final
int() truncation is insensitive to that one rounding because the
pre-truncation value is never within one ulp of an integer it does not
equal.  The model therefore computes with exact rationals, represented as
explicit numerator / positive-denominator pairs so that every step is
kernel-computable (the denominators of this pipeline stay tiny, so no
normalization is needed). -/

/-- Exact unnormalized fraction: numerator over a (kept positive)
denominator. -/
structure Frac where
  num : Int
  den : Int
  deriving Repr, DecidableEq

def Frac.ofInt (n : Int) : Frac := ⟨n, 1⟩

def Frac.add (a b : Frac) : Frac := ⟨a.num * b.den + b.num * a.den, a.den * b.den⟩

def Frac.sub (a b : Frac) : Frac := ⟨a.num * b.den - b.num * a.den, a.den * b.den⟩

def Frac.mul (a b : Frac) : Frac := ⟨a.num * b.num, a.den * b.den⟩

/-- Division, used in this development only with positive divisors, which
keeps denominators positive. -/
def Frac.div (a b : Frac) : Frac := ⟨a.num * b.den, a.den * b.num⟩

def Frac.neg (a : Frac) : Frac := ⟨-a.num, a.den⟩

/-- Python int() truncation toward zero of an exact fraction with positive
denominator. -/
def Frac.trunc (a : Frac) : Int := a.num.tdiv a.den

/-- Interpretation of a fraction as a rational number. -/
def Frac.toRat (a : Frac) : ℚ := (a.num : ℚ) / (a.den : ℚ)

/-- DS5HidRawController._stick_axis_scale: recenter a raw byte around 128,
normalize to a ratio (divisor 127 for raw values at or above 128, else 128),
optionally invert, shift into the unit interval with the float literal 0.5,
scale into the shared normalized range and truncate with int(). -/
def stick_axis_scale (value : Nat) (invert : Bool) : Int :=
  let result : Frac := Frac.sub (Frac.ofInt value) (Frac.ofInt 128)
  let ratio0 : Frac :=
    if 128 ≤ value then result.div (Frac.ofInt 127) else result.div (Frac.ofInt 128)
  let ratio1 : Frac := if invert then ratio0.neg else ratio0
  let ratio2 : Frac := (ratio1.add (Frac.ofInt 1)).mul ⟨1, 2⟩
  ((ratio2.mul (Frac.ofInt STICK_PAD_RES)).add (Frac.ofInt STICK_PAD_MIN)).trunc

example : stick_axis_scale 0 false = -32768 := by decide

example : stick_axis_scale 255 false = 32767 := by decide

example : stick_axis_scale 128 false = 0 := by decide

example : stick_axis_scale 0 true = 32767 := by decide

set_option maxRecDepth 16000 in
theorem stick_axis_scale_adjacent :
    ∀ v < 255, stick_axis_scale v false ≤ stick_axis_scale (v + 1) false ∧
      stick_axis_scale (v + 1) true ≤ stick_axis_scale v true := by decide

theorem le_of_adjacent_le (f : Nat → Int) (N : Nat) (hadj : ∀ v < N, f v ≤ f (v + 1)) :
    ∀ a b, a ≤ b → b ≤ N → f a ≤ f b := by
  intro a b hab hbN
  induction b with
  | zero =>
    have : a = 0 := Nat.le_zero.mp hab
    subst this; exact le_rfl
  | succ n ih =>
    rcases Nat.eq_or_lt_of_le hab with h | h
    · rw [h]
    · exact le_trans (ih (by omega) (by omega)) (hadj n (by omega))

set_option maxRecDepth 16000 in
theorem stick_axis_scale_bounds :
    ∀ v < 256, ∀ inv : Bool, STICK_PAD_MIN ≤ stick_axis_scale v inv ∧
      stick_axis_scale v inv ≤ STICK_PAD_MIN + STICK_PAD_RES := by decide

/-- C10: stick_axis_scale is monotone (nondecreasing for invert = false,
nonincreasing for invert = true over raw bytes 0-255), and for every raw
byte and either invert flag the result lies within the normalized range. -/
theorem C10_stick_axis_scale_monotone_bounded :
    (∀ a b, a ≤ b → b < 256 → stick_axis_scale a false ≤ stick_axis_scale b false) ∧
    (∀ a b, a ≤ b → b < 256 → stick_axis_scale b true ≤ stick_axis_scale a true) ∧
    (∀ v < 256, ∀ inv : Bool, STICK_PAD_MIN ≤ stick_axis_scale v inv ∧
      stick_axis_scale v inv ≤ STICK_PAD_MIN + STICK_PAD_RES) := by
  refine ⟨?_, ?_, stick_axis_scale_bounds⟩
  · intro a b hab hb
    exact le_of_adjacent_le (fun v => stick_axis_scale v false) 255
      (fun v hv => (stick_axis_scale_adjacent v hv).1) a b hab (by omega)
  · intro a b hab hb
    have h := le_of_adjacent_le (fun v => -stick_axis_scale v true) 255
      (fun v hv => by simpa using (stick_axis_scale_adjacent v hv).2) a b hab (by omega)
    simp only at h
    omega

/-- Witness for C10 at concrete raw bytes. -/
theorem C10_stick_axis_scale_witness :
    (stick_axis_scale 3 false ≤ stick_axis_scale 200 false) ∧
    (stick_axis_scale 200 true ≤ stick_axis_scale 3 true) ∧
    (STICK_PAD_MIN ≤ stick_axis_scale 77 true ∧
      stick_axis_scale 77 true ≤ STICK_PAD_MIN + STICK_PAD_RES) :=
  ⟨C10_stick_axis_scale_monotone_bounded.1 3 200 (by decide) (by decide),
    C10_stick_axis_scale_monotone_bounded.2.1 3 200 (by decide) (by decide),
    C10_stick_axis_scale_monotone_bounded.2.2 77 (by decide) true⟩

/-- C2 counterexample: raw value 128 yields 0, which is not the exact center
of the normalized range; the exact center of the closed interval from
STICK_PAD_MIN to STICK_PAD_MIN + STICK_PAD_RES is the non-integer -1/2, and
int() truncates it to 0. -/
theorem C2_stick_axis_scale_center_counterexample :
    stick_axis_scale 128 false = 0 ∧
    ((stick_axis_scale 128 false : ℚ)
      ≠ ((STICK_PAD_MIN : ℚ) + ((STICK_PAD_MIN + STICK_PAD_RES : Int) : ℚ)) / 2) := by
  refine ⟨by decide, ?_⟩
  rw [show stick_axis_scale 128 false = 0 from by decide]
  norm_num [STICK_PAD_MIN, STICK_PAD_MAX, STICK_PAD_RES]

set_option maxRecDepth 16000 in
/-- C2 (amended): stick_axis_scale with invert = false maps raw value 128 to
0, the int() truncation of the exact center -1/2 of the normalized range
(the exact center itself is not an integer), raw value 0 to STICK_PAD_MIN,
raw value 255 to STICK_PAD_MIN + STICK_PAD_RES, and for every raw byte 0-255
the result never exceeds those bounds. -/
theorem C2_stick_axis_scale_endpoints :
    stick_axis_scale 0 false = STICK_PAD_MIN ∧
    stick_axis_scale 255 false = STICK_PAD_MIN + STICK_PAD_RES ∧
    stick_axis_scale 128 false
      = (Frac.mk (2 * STICK_PAD_MIN + STICK_PAD_RES) 2).trunc ∧
    (∀ v < 256, STICK_PAD_MIN ≤ stick_axis_scale v false ∧
      stick_axis_scale v false ≤ STICK_PAD_MIN + STICK_PAD_RES) := by
  refine ⟨by decide, by decide, by decide, fun v hv => stick_axis_scale_bounds v hv false⟩

/-- Witness for C2 (amended) at a concrete raw byte for the bounded part. -/
theorem C2_stick_axis_scale_witness :
    STICK_PAD_MIN ≤ stick_axis_scale 19 false ∧
    stick_axis_scale 19 false ≤ STICK_PAD_MIN + STICK_PAD_RES :=
  C2_stick_axis_scale_endpoints.2.2.2 19 (by decide)

/-! ## DS5 Bluetooth input decoding (DS5HidRawController._convert_input_data) -/

/-- Sign conversion performed by ctypes.c_int16(v).value: reduce to 16 bits
and reinterpret as a signed 16-bit value. -/
def int16 (n : Nat) : Int :=
  if n % 65536 < 32768 then (n % 65536 : Int) else (n % 65536 : Int) - 65536

example : int16 0xFFFF = -1 := by decide

example : int16 0x7FFF = 32767 := by decide

/-- DualSenseBTControllerInput: the decoded controller state record; a fresh
instance starts zeroed, like the empty ctypes structure. -/
structure DualSenseBTControllerInput where
  buttons : Nat := 0
  ltrig : Nat := 0
  rtrig : Nat := 0
  stick_x : Int := 0
  stick_y : Int := 0
  lpad_x : Int := 0
  lpad_y : Int := 0
  rpad_x : Int := 0
  rpad_y : Int := 0
  accel_x : Int := 0
  accel_y : Int := 0
  accel_z : Int := 0
  gpitch : Int := 0
  groll : Int := 0
  gyaw : Int := 0
  q1 : Int := 0
  q2 : Int := 0
  q3 : Int := 0
  q4 : Int := 0
  cpad_x : Nat := 0
  cpad_y : Nat := 0
  deriving Repr, DecidableEq

/-- DS5HidRawController.DPAD_STATE_TYPES: the 9-entry map from the D-pad
nibble to an (x, y) pair; absent keys yield none so that lookups can fall
back to the centered state. -/
def DPAD_STATE_TYPES (n : Nat) : Option (Int × Int) :=
  match n with
  | 0 => some (0, STICK_PAD_MAX)
  | 1 => some (STICK_PAD_MAX, STICK_PAD_MAX)
  | 2 => some (STICK_PAD_MAX, 0)
  | 3 => some (STICK_PAD_MAX, STICK_PAD_MIN)
  | 4 => some (0, STICK_PAD_MIN)
  | 5 => some (STICK_PAD_MIN, STICK_PAD_MIN)
  | 6 => some (STICK_PAD_MIN, 0)
  | 7 => some (STICK_PAD_MIN, STICK_PAD_MAX)
  | 8 => some (0, 0)
  | _ => none

def DPAD_CENTERED_STATE : Int × Int := (0, 0)

/-- Python int() truncation toward zero of a real number. -/
noncomputable def rtrunc (x : ℝ) : Int := if 0 ≤ x then ⌊x⌋ else ⌈x⌉

theorem rtrunc_intCast (n : Int) : rtrunc ((n : Int) : ℝ) = n := by
  unfold rtrunc
  split
  · exact Int.floor_intCast n
  · exact Int.ceil_intCast n

theorem rtrunc_zero : rtrunc 0 = 0 := by
  simpa using rtrunc_intCast 0

/-- DS5HidRawController._calculate_quaternion: convert the decoded gyro
samples to degrees per second (sensor resolution 16), scale by the elapsed
time, convert to radians, build the incremental rotation quaternion from the
Euler half-angles, Hamilton-multiply the previous cumulative quaternion by
it, store the 32767-scaled int() truncations in q1..q4 (yaw sign-flipped)
and return the new cumulative quaternion. -/
noncomputable def calculate_quaternion (previous_quat : ℝ × ℝ × ℝ × ℝ)
    (delta_time : ℝ) (state : DualSenseBTControllerInput) :
    DualSenseBTControllerInput × (ℝ × ℝ × ℝ × ℝ) :=
  let GYRO_RES_IN_DEG_SEC : ℝ := 16
  let yaw := (state.gyaw : ℝ) / GYRO_RES_IN_DEG_SEC
  let pitch := (state.gpitch : ℝ) / GYRO_RES_IN_DEG_SEC
  let roll := (state.groll : ℝ) / GYRO_RES_IN_DEG_SEC
  let yaw := yaw * delta_time
  let yaw_rad := yaw * Real.pi / 180
  let pitch := pitch * delta_time
  let pitch_rad := pitch * Real.pi / 180
  let roll := roll * delta_time
  let roll_rad := roll * Real.pi / 180
  let qx := Real.sin (roll_rad / 2) * Real.cos (pitch_rad / 2) * Real.cos (yaw_rad / 2)
    - Real.cos (roll_rad / 2) * Real.sin (pitch_rad / 2) * Real.sin (yaw_rad / 2)
  let qy := Real.cos (roll_rad / 2) * Real.sin (pitch_rad / 2) * Real.cos (yaw_rad / 2)
    + Real.sin (roll_rad / 2) * Real.cos (pitch_rad / 2) * Real.sin (yaw_rad / 2)
  let qz := Real.cos (roll_rad / 2) * Real.cos (pitch_rad / 2) * Real.sin (yaw_rad / 2)
    - Real.sin (roll_rad / 2) * Real.sin (pitch_rad / 2) * Real.cos (yaw_rad / 2)
  let qw := Real.cos (roll_rad / 2) * Real.cos (pitch_rad / 2) * Real.cos (yaw_rad / 2)
    + Real.sin (roll_rad / 2) * Real.sin (pitch_rad / 2) * Real.sin (yaw_rad / 2)
  let (old_qw, old_qx, old_qy, old_qz) := previous_quat
  let w := old_qw * qw - old_qx * qx - old_qy * qy - old_qz * qz
  let x := old_qw * qx + old_qx * qw + old_qy * qz - old_qz * qy
  let y := old_qw * qy - old_qx * qz + old_qy * qw + old_qz * qx
  let z := old_qw * qz + old_qx * qy - old_qy * qx + old_qz * qw
  ({ state with
      q1 := rtrunc (w * 32767),
      q2 := rtrunc (y * 32767),
      q3 := rtrunc (x * 32767),
      q4 := rtrunc (z * -32767) },
    (w, x, y, z))

theorem calculate_quaternion_buttons (pq : ℝ × ℝ × ℝ × ℝ) (dt : ℝ)
    (st : DualSenseBTControllerInput) :
    ((calculate_quaternion pq dt st).1).buttons = st.buttons := by
  obtain ⟨a, b, c, d⟩ := pq
  rfl

theorem calculate_quaternion_lpad (pq : ℝ × ℝ × ℝ × ℝ) (dt : ℝ)
    (st : DualSenseBTControllerInput) :
    ((calculate_quaternion pq dt st).1).lpad_x = st.lpad_x ∧
      ((calculate_quaternion pq dt st).1).lpad_y = st.lpad_y := by
  obtain ⟨a, b, c, d⟩ := pq
  exact ⟨rfl, rfl⟩

/-- C3: with zero gyro values or zero elapsed time the cumulative quaternion
is unchanged, and from the identity quaternion the scaled integer outputs
are q1 = 32767 and q2 = q3 = q4 = 0. -/
theorem C3_calculate_quaternion_identity (pq : ℝ × ℝ × ℝ × ℝ) (dt : ℝ)
    (state : DualSenseBTControllerInput)
    (h : (state.gyaw = 0 ∧ state.gpitch = 0 ∧ state.groll = 0) ∨ dt = 0) :
    (calculate_quaternion pq dt state).2 = pq ∧
    (pq = (1, 0, 0, 0) →
      ((calculate_quaternion pq dt state).1.q1 = 32767 ∧
        (calculate_quaternion pq dt state).1.q2 = 0 ∧
        (calculate_quaternion pq dt state).1.q3 = 0 ∧
        (calculate_quaternion pq dt state).1.q4 = 0)) := by
  obtain ⟨a, b, c, d⟩ := pq
  have hyaw : ((state.gyaw : ℝ) / 16 * dt * Real.pi / 180) = 0 := by
    rcases h with ⟨h1, _, _⟩ | h4
    · rw [h1]; norm_num
    · rw [h4]; ring
  have hpitch : ((state.gpitch : ℝ) / 16 * dt * Real.pi / 180) = 0 := by
    rcases h with ⟨_, h2, _⟩ | h4
    · rw [h2]; norm_num
    · rw [h4]; ring
  have hroll : ((state.groll : ℝ) / 16 * dt * Real.pi / 180) = 0 := by
    rcases h with ⟨_, _, h3⟩ | h4
    · rw [h3]; norm_num
    · rw [h4]; ring
  simp only [calculate_quaternion, hyaw, hpitch, hroll]
  norm_num [Real.sin_zero, Real.cos_zero]
  rintro rfl rfl rfl rfl
  refine ⟨?_, ?_, ?_, ?_⟩
  · rw [show ((1 : ℝ) * 32767) = ((32767 : Int) : ℝ) by norm_num, rtrunc_intCast]
  · rw [show ((0 : ℝ) * 32767) = ((0 : Int) : ℝ) by norm_num, rtrunc_intCast]
  · rw [show ((0 : ℝ) * 32767) = ((0 : Int) : ℝ) by norm_num, rtrunc_intCast]
  · rw [show (-((0 : ℝ) * 32767)) = ((0 : Int) : ℝ) by norm_num, rtrunc_intCast]

/-- Witness for C3 at the identity quaternion, zero gyro state and a nonzero
elapsed time. -/
theorem C3_calculate_quaternion_witness :
    (calculate_quaternion (1, 0, 0, 0) 1 {} ).2 = (1, 0, 0, 0) ∧
    ((1, 0, 0, 0) = ((1 : ℝ), (0 : ℝ), (0 : ℝ), (0 : ℝ)) →
      ((calculate_quaternion (1, 0, 0, 0) 1 {}).1.q1 = 32767 ∧
        (calculate_quaternion (1, 0, 0, 0) 1 {}).1.q2 = 0 ∧
        (calculate_quaternion (1, 0, 0, 0) 1 {}).1.q3 = 0 ∧
        (calculate_quaternion (1, 0, 0, 0) 1 {}).1.q4 = 0)) :=
  C3_calculate_quaternion_identity (1, 0, 0, 0) 1 {} (Or.inl ⟨rfl, rfl, rfl⟩)

theorem calculate_quaternion_lpad_x (pq : ℝ × ℝ × ℝ × ℝ) (dt : ℝ)
    (st : DualSenseBTControllerInput) :
    ((calculate_quaternion pq dt st).1).lpad_x = st.lpad_x :=
  (calculate_quaternion_lpad pq dt st).1

theorem calculate_quaternion_lpad_y (pq : ℝ × ℝ × ℝ × ℝ) (dt : ℝ)
    (st : DualSenseBTControllerInput) :
    ((calculate_quaternion pq dt st).1).lpad_y = st.lpad_y :=
  (calculate_quaternion_lpad pq dt st).2

/-- Button decoding statements of _convert_input_data for bytes 9, 10 and
11: face buttons from the high nibble of byte 9, the left-pad flags from a
non-centered D-pad nibble, the eight bits of byte 10, and the two low bits
of byte 11.  The sequence of in-place bitwise-or statements of the source is
written as one bitwise-or chain. -/
def decode_buttons (byte9 byte10 byte11 : Nat) : Nat :=
  (if byte9 &&& (1 <<< 7) ≠ 0 then SCButtons.Y else 0) |||
  (if byte9 &&& (1 <<< 6) ≠ 0 then SCButtons.B else 0) |||
  (if byte9 &&& (1 <<< 5) ≠ 0 then SCButtons.A else 0) |||
  (if byte9 &&& (1 <<< 4) ≠ 0 then SCButtons.X else 0) |||
  (if byte9 &&& 0x0F ≠ 8 then SCButtons.LPAD ||| SCButtons.LPADTOUCH else 0) |||
  (if byte10 &&& (1 <<< 7) ≠ 0 then SCButtons.RPAD else 0) |||
  (if byte10 &&& (1 <<< 6) ≠ 0 then SCButtons.STICKPRESS else 0) |||
  (if byte10 &&& (1 <<< 5) ≠ 0 then SCButtons.START else 0) |||
  (if byte10 &&& (1 <<< 4) ≠ 0 then SCButtons.BACK else 0) |||
  (if byte10 &&& (1 <<< 3) ≠ 0 then SCButtons.RT else 0) |||
  (if byte10 &&& (1 <<< 2) ≠ 0 then SCButtons.LT else 0) |||
  (if byte10 &&& (1 <<< 1) ≠ 0 then SCButtons.RB else 0) |||
  (if byte10 &&& (1 <<< 0) ≠ 0 then SCButtons.LB else 0) |||
  (if byte11 &&& (1 <<< 0) ≠ 0 then SCButtons.C else 0) |||
  (if byte11 &&& (1 <<< 1) ≠ 0 then SCButtons.CPADPRESS else 0)

/-- DS5HidRawController._convert_input_data: decode one 78-byte Bluetooth
frame into a fresh zeroed controller state: scaled sticks and right pad, raw
triggers, buttons, D-pad position from the low nibble of byte 9, signed
16-bit gyro (yaw and roll negated) and accelerometer (doubled, pitch axis
inverted), the quaternion integration, the center-pad touch flag from a
clear bit 7 of byte 34, and the packed touchpad coordinates. -/
noncomputable def convert_input_data (previous_quat : ℝ × ℝ × ℝ × ℝ)
    (delta_time : ℝ) (data : List Nat) :
    DualSenseBTControllerInput × (ℝ × ℝ × ℝ × ℝ) :=
  let dpad_state := data.getD 9 0 &&& 0x0F
  let dpad_pos :=
    if dpad_state ≠ 8 then (DPAD_STATE_TYPES dpad_state).getD DPAD_CENTERED_STATE
    else ((0 : Int), (0 : Int))
  let state0 : DualSenseBTControllerInput :=
    { stick_x := stick_axis_scale (data.getD 2 0) false
      stick_y := stick_axis_scale (data.getD 3 0) true
      rpad_x := stick_axis_scale (data.getD 4 0) false
      rpad_y := stick_axis_scale (data.getD 5 0) true
      ltrig := data.getD 6 0
      rtrig := data.getD 7 0
      buttons := decode_buttons (data.getD 9 0) (data.getD 10 0) (data.getD 11 0)
      lpad_x := dpad_pos.1
      lpad_y := dpad_pos.2
      gpitch := int16 ((data.getD 18 0 <<< 8) ||| data.getD 17 0)
      gyaw := int16 ((data.getD 20 0 <<< 8) ||| data.getD 19 0) * (-1)
      groll := int16 ((data.getD 22 0 <<< 8) ||| data.getD 21 0) * (-1)
      accel_x := int16 ((data.getD 24 0 <<< 8) ||| data.getD 23 0) * 2
      accel_y := int16 ((data.getD 28 0 <<< 8) ||| data.getD 27 0) * (-2)
      accel_z := int16 ((data.getD 26 0 <<< 8) ||| data.getD 25 0) * 2 }
  let qres := calculate_quaternion previous_quat delta_time state0
  let state2 :=
    if data.getD 34 0 &&& 0x80 = 0 then
      { qres.1 with buttons := qres.1.buttons ||| SCButtons.CPADTOUCH }
    else qres.1
  let state3 := { state2 with
      cpad_x := ((data.getD 36 0 &&& 0x0F) <<< 8) ||| data.getD 35 0,
      cpad_y := ((data.getD 37 0 &&& 0x0F) <<< 4) ||| ((data.getD 36 0 &&& 0xF0) >>> 4) }
  (state3, qres.2)

/-- Net effect of _convert_input_data on the button bitmask. -/
theorem convert_buttons_eq (pq : ℝ × ℝ × ℝ × ℝ) (dt : ℝ) (data : List Nat) :
    ((convert_input_data pq dt data).1).buttons
      = decode_buttons (data.getD 9 0) (data.getD 10 0) (data.getD 11 0) |||
        (if data.getD 34 0 &&& 0x80 = 0 then SCButtons.CPADTOUCH else 0) := by
  by_cases h : data.getD 34 0 &&& 0x80 = 0 <;>
    (simp only [List.getD_eq_getElem?_getD] at h
     simp [convert_input_data, h, calculate_quaternion_buttons])

/-- Net effect of _convert_input_data on the left-pad position. -/
theorem convert_lpad_eq (pq : ℝ × ℝ × ℝ × ℝ) (dt : ℝ) (data : List Nat) :
    (((convert_input_data pq dt data).1).lpad_x,
        ((convert_input_data pq dt data).1).lpad_y)
      = (if data.getD 9 0 &&& 0x0F ≠ 8 then
          (DPAD_STATE_TYPES (data.getD 9 0 &&& 0x0F)).getD DPAD_CENTERED_STATE
        else ((0 : Int), (0 : Int))) := by
  by_cases h : data.getD 34 0 &&& 0x80 = 0 <;>
    by_cases h8 : data.getD 9 0 &&& 0x0F ≠ 8 <;>
      (simp only [List.getD_eq_getElem?_getD] at h h8
       simp [convert_input_data, h, h8, calculate_quaternion_lpad_x,
         calculate_quaternion_lpad_y])

theorem and_two_pow_ne_zero_iff (x i : Nat) :
    x &&& 2 ^ i ≠ 0 ↔ x.testBit i = true := by
  rw [Nat.and_two_pow]
  cases h : x.testBit i <;> simp [h]

theorem and_two_pow_eq_zero_iff (x i : Nat) :
    x &&& 2 ^ i = 0 ↔ x.testBit i = false := by
  rw [Nat.and_two_pow]
  cases h : x.testBit i <;> simp [h]

/-- Spec-side statement of the 9-entry D-pad table of the claim, with every
value outside 0-8 falling back to the centered pair. -/
def dpad_spec_table (n : Nat) : Int × Int :=
  match n with
  | 0 => (0, STICK_PAD_MAX)
  | 1 => (STICK_PAD_MAX, STICK_PAD_MAX)
  | 2 => (STICK_PAD_MAX, 0)
  | 3 => (STICK_PAD_MAX, STICK_PAD_MIN)
  | 4 => (0, STICK_PAD_MIN)
  | 5 => (STICK_PAD_MIN, STICK_PAD_MIN)
  | 6 => (STICK_PAD_MIN, 0)
  | 7 => (STICK_PAD_MIN, STICK_PAD_MAX)
  | 8 => (0, 0)
  | _ => (0, 0)

/-- C4: for every DS5 Bluetooth input frame the low nibble of byte 9 selects
the left-pad position exactly per the 9-entry table (0 = Up, 1 = UpRight,
2 = Right, 3 = DownRight, 4 = Down, 5 = DownLeft, 6 = Left, 7 = UpLeft,
8 = Centered, anything else centered), and the LPAD and LPADTOUCH flags are
set exactly for the nibbles other than 8. -/
theorem C4_convert_input_dpad (data : List Nat) (pq : ℝ × ℝ × ℝ × ℝ) (dt : ℝ) :
    (((convert_input_data pq dt data).1).lpad_x,
        ((convert_input_data pq dt data).1).lpad_y)
      = dpad_spec_table (data.getD 9 0 &&& 0x0F) ∧
    (((convert_input_data pq dt data).1).buttons &&& SCButtons.LPAD ≠ 0
      ↔ data.getD 9 0 &&& 0x0F ≠ 8) ∧
    (((convert_input_data pq dt data).1).buttons &&& SCButtons.LPADTOUCH ≠ 0
      ↔ data.getD 9 0 &&& 0x0F ≠ 8) := by
  have hn : data.getD 9 0 &&& 0x0F < 16 := by
    have h := Nat.and_lt_two_pow (data.getD 9 0) (show (0x0F : Nat) < 2 ^ 4 by norm_num)
    exact lt_of_lt_of_le h (by norm_num)
  refine ⟨?_, ?_, ?_⟩
  · rw [convert_lpad_eq]
    revert hn
    generalize data.getD 9 0 &&& 0x0F = n
    intro hn
    interval_cases n <;>
      simp [DPAD_STATE_TYPES, DPAD_CENTERED_STATE, dpad_spec_table]
  · rw [show SCButtons.LPAD = 2 ^ 25 from rfl, and_two_pow_ne_zero_iff, convert_buttons_eq]
    simp only [Nat.testBit_or, decode_buttons, apply_ite (fun m => Nat.testBit m 25),
      SCButtons.Y, SCButtons.B, SCButtons.A, SCButtons.X, SCButtons.LPAD,
      SCButtons.LPADTOUCH, SCButtons.RPAD, SCButtons.STICKPRESS, SCButtons.START,
      SCButtons.BACK, SCButtons.RT, SCButtons.LT, SCButtons.RB, SCButtons.LB,
      SCButtons.C, SCButtons.CPADPRESS, SCButtons.CPADTOUCH,
      Nat.testBit_two_pow, Nat.zero_testBit]
    by_cases h8 : data.getD 9 0 &&& 0x0F ≠ 8 <;>
      by_cases hc : data.getD 34 0 &&& 0x80 = 0 <;>
        simp_all
  · rw [show SCButtons.LPADTOUCH = 2 ^ 27 from rfl, and_two_pow_ne_zero_iff,
      convert_buttons_eq]
    simp only [Nat.testBit_or, decode_buttons, apply_ite (fun m => Nat.testBit m 27),
      SCButtons.Y, SCButtons.B, SCButtons.A, SCButtons.X, SCButtons.LPAD,
      SCButtons.LPADTOUCH, SCButtons.RPAD, SCButtons.STICKPRESS, SCButtons.START,
      SCButtons.BACK, SCButtons.RT, SCButtons.LT, SCButtons.RB, SCButtons.LB,
      SCButtons.C, SCButtons.CPADPRESS, SCButtons.CPADTOUCH,
      Nat.testBit_two_pow, Nat.zero_testBit]
    by_cases h8 : data.getD 9 0 &&& 0x0F ≠ 8 <;>
      by_cases hc : data.getD 34 0 &&& 0x80 = 0 <;>
        simp_all

/-- Model of the Python statement buttons &= ~flag for a single-bit flag on
an unbounded Python int: the flag bit is cleared, every other bit kept. -/
def and_not_flag (b flag : Nat) : Nat := if b &&& flag ≠ 0 then b ^^^ flag else b

/-- Center-pad touch override of DS5Controller.input on the USB path: a set
bit 7 of byte 33 of the USB report clears the CPADTOUCH flag (not touched),
a clear bit sets it (touched). -/
def usb_input_cpadtouch (buttons : Nat) (byte33 : Nat) : Nat :=
  if byte33 >>> 7 ≠ 0 then and_not_flag buttons SCButtons.CPADTOUCH
  else buttons ||| SCButtons.CPADTOUCH

/-- C6 counterexample: the polarities of the two paths are equal, not
inverted.  On a frame whose byte 34 has bit 7 clear the Bluetooth path marks
the center pad touched, and on a USB report whose byte 33 has bit 7 equally
clear the USB path also marks it touched. -/
theorem C6_cpadtouch_polarity_counterexample :
    ((convert_input_data (1, 0, 0, 0) 0 (List.replicate 78 0)).1.buttons
        &&& SCButtons.CPADTOUCH ≠ 0) ∧
    (usb_input_cpadtouch 0 0 &&& SCButtons.CPADTOUCH ≠ 0) := by
  constructor
  · rw [convert_buttons_eq]
    decide
  · decide

/-- C6 (amended): on the DS5 Bluetooth path the center-pad-touch flag is set
exactly when bit 7 of byte 34 of the frame is unset; this polarity is the
same as on the USB path, which derives the flag from bit 7 of byte 33 of its
report with a clear bit likewise meaning touched. -/
theorem C6_cpadtouch_bit (data : List Nat) (pq : ℝ × ℝ × ℝ × ℝ) (dt : ℝ)
    (buttons byte33 : Nat) (hb : byte33 < 256) :
    (((convert_input_data pq dt data).1).buttons &&& SCButtons.CPADTOUCH ≠ 0
      ↔ (data.getD 34 0).testBit 7 = false) ∧
    (usb_input_cpadtouch buttons byte33 &&& SCButtons.CPADTOUCH ≠ 0
      ↔ byte33.testBit 7 = false) := by
  constructor
  · rw [show SCButtons.CPADTOUCH = 2 ^ 2 from rfl, and_two_pow_ne_zero_iff,
      convert_buttons_eq]
    have hbit : data.getD 34 0 &&& 0x80 = 0 ↔ (data.getD 34 0).testBit 7 = false := by
      rw [show (0x80 : Nat) = 2 ^ 7 from rfl, and_two_pow_eq_zero_iff]
    simp only [Nat.testBit_or, decode_buttons, apply_ite (fun m => Nat.testBit m 2),
      SCButtons.Y, SCButtons.B, SCButtons.A, SCButtons.X, SCButtons.LPAD,
      SCButtons.LPADTOUCH, SCButtons.RPAD, SCButtons.STICKPRESS, SCButtons.START,
      SCButtons.BACK, SCButtons.RT, SCButtons.LT, SCButtons.RB, SCButtons.LB,
      SCButtons.C, SCButtons.CPADPRESS, SCButtons.CPADTOUCH,
      Nat.testBit_two_pow, Nat.zero_testBit]
    by_cases hc : data.getD 34 0 &&& 0x80 = 0 <;>
      by_cases h8 : data.getD 9 0 &&& 0x0F ≠ 8 <;>
        simp_all
  · have hsr : byte33 >>> 7 = byte33 / 128 := by
      rw [Nat.shiftRight_eq_div_pow]
    unfold usb_input_cpadtouch and_not_flag
    by_cases h7 : byte33 >>> 7 ≠ 0
    · have hdiv : byte33 / 128 = 1 := by
        rw [hsr] at h7; omega
      have htb7 : byte33.testBit 7 = true := by
        rw [Nat.testBit_to_div_mod]
        norm_num [hdiv]
      rw [if_pos h7]
      by_cases hcp : buttons &&& SCButtons.CPADTOUCH ≠ 0
      · rw [if_pos hcp]
        have ht2 : buttons.testBit 2 = true :=
          (and_two_pow_ne_zero_iff buttons 2).mp hcp
        have hzero : (buttons ^^^ SCButtons.CPADTOUCH) &&& SCButtons.CPADTOUCH = 0 := by
          rw [show SCButtons.CPADTOUCH = 2 ^ 2 from rfl, and_two_pow_eq_zero_iff]
          have h42 : Nat.testBit 4 2 = true := by decide
          simp [Nat.testBit_xor, ht2, h42]
        simp [hzero, htb7]
      · rw [if_neg hcp]
        simp only [not_not] at hcp
        simp [hcp, htb7]
    · have hdiv : byte33 / 128 = 0 := by
        rw [hsr] at h7; omega
      have htb7 : byte33.testBit 7 = false := by
        rw [Nat.testBit_to_div_mod]
        norm_num [hdiv]
      rw [if_neg h7]
      have hset : (buttons ||| SCButtons.CPADTOUCH) &&& SCButtons.CPADTOUCH ≠ 0 := by
        rw [show SCButtons.CPADTOUCH = 2 ^ 2 from rfl, and_two_pow_ne_zero_iff,
          Nat.testBit_or]
        have h42 : Nat.testBit 4 2 = true := by decide
        simp [h42]
      simp [hset, htb7]

/-- Witness for C6 (amended) at a concrete frame and byte values. -/
theorem C6_cpadtouch_bit_witness :
    (((convert_input_data (1, 0, 0, 0) 0 (List.replicate 78 0)).1).buttons
        &&& SCButtons.CPADTOUCH ≠ 0
      ↔ ((List.replicate 78 0).getD 34 0).testBit 7 = false) ∧
    (usb_input_cpadtouch 0 5 &&& SCButtons.CPADTOUCH ≠ 0
      ↔ (5 : Nat).testBit 7 = false) :=
  C6_cpadtouch_bit (List.replicate 78 0) (1, 0, 0, 0) 0 0 5 (by decide)

/-! ## Raw-HID frame rejection (DS4HIDRawController._input and
DS5HidRawController._input) -/

/-- DS4HIDRawController._input: a 78-byte frame whose leading byte is not
0x11 is dropped before anything else runs; otherwise bytes 2 onward are
handed to the shared DS4Controller.input decode path, modelled by an
abstract decode-and-dispatch step (the external generic decode engine plus
mapper).  The boolean records whether a mapper dispatch happened. -/
def ds4_hidraw_input {σ : Type} (decode_dispatch : List Nat → σ → σ × Bool)
    (st : σ) (data : List Nat) : σ × Bool :=
  if data.getD 0 0 ≠ 0x11 then (st, false)
  else decode_dispatch (data.drop 2) st

/-- Mutable per-controller fields read or written by
DS5HidRawController._input. -/
structure DS5RawState where
  old_state : DualSenseBTControllerInput
  previous_quat : ℝ × ℝ × ℝ × ℝ
  previous_time : ℝ
  delta_time : ℝ

/-- DS5HidRawController._input: drop any 78-byte frame whose leading byte
differs from 0x31; otherwise update the wall-clock delta, convert the frame,
dispatch the (old, new) state pair to the mapper and store the new state and
timestamp.  The current wall-clock reading is an input; the returned option
is the dispatched pair, none when nothing reaches the mapper. -/
noncomputable def ds5_hidraw_input (st : DS5RawState) (current_time : ℝ)
    (tempdata : List Nat) :
    DS5RawState × Option (DualSenseBTControllerInput × DualSenseBTControllerInput) :=
  if tempdata.getD 0 0 ≠ 0x31 then (st, none)
  else
    let delta := current_time - st.previous_time
    let conv := convert_input_data st.previous_quat delta tempdata
    ({ old_state := conv.1, previous_quat := conv.2,
        previous_time := current_time, delta_time := delta },
      some (st.old_state, conv.1))

/-- C8: a frame whose first byte is not 0x11 (DS4 Bluetooth) respectively
0x31 (DS5 Bluetooth) produces no mapper dispatch, no state change and no
failure: both handlers return the unchanged state as total functions. -/
theorem C8_reject_foreign_frames {σ : Type}
    (decode_dispatch : List Nat → σ → σ × Bool) (st4 : σ) (data : List Nat)
    (st5 : DS5RawState) (now : ℝ) (tempdata : List Nat)
    (h4 : data.getD 0 0 ≠ 0x11) (h5 : tempdata.getD 0 0 ≠ 0x31) :
    ds4_hidraw_input decode_dispatch st4 data = (st4, false) ∧
    ds5_hidraw_input st5 now tempdata = (st5, none) := by
  constructor
  · rw [ds4_hidraw_input, if_pos h4]
  · rw [ds5_hidraw_input, if_pos h5]

/-- Witness for C8 at concrete all-zero frames. -/
theorem C8_reject_foreign_frames_witness :
    (List.replicate 78 (0 : Nat)).getD 0 0 ≠ 0x11 ∧
    (List.replicate 78 (0 : Nat)).getD 0 0 ≠ 0x31 ∧
    (ds4_hidraw_input (fun _ s => (s, true)) (0 : Nat) (List.replicate 78 0)
        = (0, false) ∧
      ds5_hidraw_input ⟨{}, (1, 0, 0, 0), 0, 0⟩ 1 (List.replicate 78 0)
        = (⟨{}, (1, 0, 0, 0), 0, 0⟩, none)) :=
  ⟨by decide, by decide,
    C8_reject_foreign_frames (fun _ s => (s, true)) 0 (List.replicate 78 0)
      ⟨{}, (1, 0, 0, 0), 0, 0⟩ 1 (List.replicate 78 0) (by decide) (by decide)⟩

/-! ## Feedback and the auto-stop timer (DS5Controller.feedback and
DS5HidRawController.feedback) -/

/-- Modelled from the spec: the haptic target enumeration HapticPos from
scc.constants, outside the two driver modules. -/
inductive HapticPos
  | LEFT
  | RIGHT
  | BOTH
  deriving Repr, DecidableEq

/-- Python int() truncation toward zero of an exact rational. -/
def qtrunc (q : ℚ) : Int := q.num.tdiv (q.den : Int)

/-- One staged output record of the feedback path: both motor strengths. -/
structure MotorOutput where
  motor_left : Int := 0
  motor_right : Int := 0
  deriving Repr, DecidableEq

/-- Mutable state touched by the feedback path: the reused output record,
the staged-outputs map, the stored cancel handle, the scheduler's live
one-shot tasks for this controller (handle and delay), and a fresh-handle
counter. -/
structure FeedbackState where
  motor_left : Int := 0
  motor_right : Int := 0
  outputs : List (String × MotorOutput) := []
  cancel_task : Option Nat := none
  pending : List (Nat × ℚ) := []
  next_task : Nat := 0

/-- Dict assignment self._outputs[output_id] = output. -/
def schedule_output (outputs : List (String × MotorOutput)) (key : String)
    (val : MotorOutput) : List (String × MotorOutput) :=
  (key, val) :: outputs.filter (fun p => p.1 ≠ key)

/-- DS5Controller.feedback (floor 0.02, no immediate flush) and
DS5HidRawController.feedback (floor 0.05, immediate flush): normalize the
amplitude, set the motors addressed by the haptic target (the heavier left
motor at half scale), compute the auto-stop delay as period x count /
0x10000 floored at the transport's minimum, stage the record, cancel any
previously scheduled auto-stop task and schedule a new one after that delay.
Returns the new state and the scheduled delay. -/
def feedback_step (floor_duration : ℚ) (flush_now : Bool) (st : FeedbackState)
    (position : HapticPos) (amplitude period count : Nat) : FeedbackState × ℚ :=
  let normalized_amp : ℚ := (amplitude : ℚ) / 0x8000
  let clamped_amp := qtrunc (normalized_amp * 0xff)
  let half_amp := qtrunc (normalized_amp * 0x80)
  let st :=
    match position with
    | .LEFT => { st with motor_left := half_amp }
    | .RIGHT => { st with motor_right := clamped_amp }
    | .BOTH => { st with motor_right := clamped_amp, motor_left := half_amp }
  let duration := (period : ℚ) * (count : ℚ) / 0x10000
  let duration := max duration floor_duration
  let st := { st with
    outputs := schedule_output st.outputs "feedback"
      ⟨st.motor_left, st.motor_right⟩ }
  let st := if flush_now then { st with outputs := [] } else st
  let pending :=
    match st.cancel_task with
    | some t => st.pending.filter (fun p => p.1 ≠ t)
    | none => st.pending
  ({ st with
      pending := ((st.next_task, duration) :: pending),
      cancel_task := some st.next_task,
      next_task := st.next_task + 1 },
    duration)

/-- The scheduler fires a still-pending auto-stop task: the task leaves the
pending set and its clear_feedback body zeroes both motors and re-stages
(and on the Bluetooth path flushes) the output; firing a canceled handle
does nothing. -/
def fire_step (flush_now : Bool) (st : FeedbackState) (t : Nat) : FeedbackState :=
  if st.pending.any (fun p => p.1 = t) then
    let st := { st with motor_left := 0, motor_right := 0 }
    let st := { st with
      outputs := schedule_output st.outputs "feedback" ⟨0, 0⟩ }
    let st := if flush_now then { st with outputs := [] } else st
    { st with pending := st.pending.filter (fun p => p.1 ≠ t) }
  else st

inductive FbEvent
  | feedback (position : HapticPos) (amplitude period count : Nat)
  | fire (t : Nat)

/-- Run a sequence of feedback calls and timer firings from the initial
state of a freshly constructed controller. -/
def run_events (floor_duration : ℚ) (flush_now : Bool)
    (events : List FbEvent) : FeedbackState :=
  events.foldl
    (fun st e =>
      match e with
      | .feedback pos a p c => (feedback_step floor_duration flush_now st pos a p c).1
      | .fire t => fire_step flush_now st t)
    {}

/-- At most one auto-stop task pending, and every pending task is the one
the stored cancel handle refers to. -/
def FbInv (st : FeedbackState) : Prop :=
  st.pending.length ≤ 1 ∧ ∀ p ∈ st.pending, st.cancel_task = some p.1

theorem feedback_step_struct (floor_duration : ℚ) (flush_now : Bool)
    (st : FeedbackState) (pos : HapticPos) (a p c : Nat) :
    (feedback_step floor_duration flush_now st pos a p c).1.pending
        = ((st.next_task, max ((p : ℚ) * (c : ℚ) / 0x10000) floor_duration) ::
            (match st.cancel_task with
              | some t => st.pending.filter (fun q => q.1 ≠ t)
              | none => st.pending)) ∧
      (feedback_step floor_duration flush_now st pos a p c).1.cancel_task
        = some st.next_task ∧
      (feedback_step floor_duration flush_now st pos a p c).2
        = max ((p : ℚ) * (c : ℚ) / 0x10000) floor_duration := by
  cases pos <;> cases flush_now <;> exact ⟨rfl, rfl, rfl⟩

theorem fbinv_feedback (floor_duration : ℚ) (flush_now : Bool)
    (st : FeedbackState) (pos : HapticPos) (a p c : Nat) (h : FbInv st) :
    FbInv (feedback_step floor_duration flush_now st pos a p c).1 := by
  obtain ⟨hlen, hmem⟩ := h
  have hfilter :
      (match st.cancel_task with
        | some t => st.pending.filter (fun q => q.1 ≠ t)
        | none => st.pending) = [] := by
    cases hct : st.cancel_task with
    | none =>
      cases hp : st.pending with
      | nil => rfl
      | cons q rest =>
        have := hmem q (by rw [hp]; exact List.mem_cons_self q rest)
        rw [hct] at this
        exact absurd this (by simp)
    | some t =>
      rw [List.filter_eq_nil_iff]
      intro q hq
      have := hmem q hq
      rw [hct] at this
      simp at this ⊢
      omega
  obtain ⟨hpend, hcan, _⟩ := feedback_step_struct floor_duration flush_now st pos a p c
  rw [hfilter] at hpend
  constructor
  · rw [hpend]; simp
  · intro q hq
    rw [hpend] at hq
    rw [hcan]
    simp at hq
    rw [hq]

theorem fire_step_struct (flush_now : Bool) (st : FeedbackState) (t : Nat) :
    (fire_step flush_now st t).pending
        = (if st.pending.any (fun p => p.1 = t) then
            st.pending.filter (fun p => p.1 ≠ t)
          else st.pending) ∧
      (fire_step flush_now st t).cancel_task = st.cancel_task := by
  by_cases h : (st.pending.any (fun p => p.1 = t)) = true <;>
    cases flush_now <;> simp [fire_step, h]

theorem fbinv_fire (flush_now : Bool) (st : FeedbackState) (t : Nat)
    (h : FbInv st) : FbInv (fire_step flush_now st t) := by
  obtain ⟨hlen, hmem⟩ := h
  obtain ⟨hpend, hcan⟩ := fire_step_struct flush_now st t
  constructor
  · rw [hpend]
    split
    · exact le_trans (List.length_filter_le _ _) hlen
    · exact hlen
  · intro q hq
    rw [hpend] at hq
    rw [hcan]
    split at hq
    · exact hmem q (List.mem_of_mem_filter hq)
    · exact hmem q hq

theorem fbinv_run (floor_duration : ℚ) (flush_now : Bool)
    (events : List FbEvent) : FbInv (run_events floor_duration flush_now events) := by
  unfold run_events
  have hgen : ∀ (evs : List FbEvent) (st : FeedbackState), FbInv st →
      FbInv (evs.foldl
        (fun st e =>
          match e with
          | .feedback pos a p c =>
            (feedback_step floor_duration flush_now st pos a p c).1
          | .fire t => fire_step flush_now st t) st) := by
    intro evs
    induction evs with
    | nil => intro st h; exact h
    | cons e rest ih =>
      intro st h
      cases e with
      | feedback pos a p c =>
        exact ih _ (fbinv_feedback floor_duration flush_now st pos a p c h)
      | fire t => exact ih _ (fbinv_fire flush_now st t h)
  exact hgen events {} ⟨by simp, by simp⟩

/-- C7: the auto-stop delay scheduled by a feedback call equals
max(period x count / 0x10000, floor) with floor 0.02 s on the USB path and
0.05 s on the Bluetooth path, never falls below the floor, and because
scheduling a new feedback cancels any previously pending stop task first, at
most one stop timer per controller is ever pending under every sequence of
feedback calls and timer firings. -/
theorem C7_feedback_duration_floor_single_timer :
    (∀ (st : FeedbackState) (pos : HapticPos) (a p c : Nat),
      (feedback_step (0.02 : ℚ) false st pos a p c).2
          = max ((p : ℚ) * (c : ℚ) / 0x10000) (0.02 : ℚ) ∧
        (0.02 : ℚ) ≤ (feedback_step (0.02 : ℚ) false st pos a p c).2 ∧
      (feedback_step (0.05 : ℚ) true st pos a p c).2
          = max ((p : ℚ) * (c : ℚ) / 0x10000) (0.05 : ℚ) ∧
        (0.05 : ℚ) ≤ (feedback_step (0.05 : ℚ) true st pos a p c).2) ∧
    (∀ events : List FbEvent,
      (run_events (0.02 : ℚ) false events).pending.length ≤ 1 ∧
      (run_events (0.05 : ℚ) true events).pending.length ≤ 1) := by
  constructor
  · intro st pos a p c
    obtain ⟨_, _, h1⟩ := feedback_step_struct (0.02 : ℚ) false st pos a p c
    obtain ⟨_, _, h2⟩ := feedback_step_struct (0.05 : ℚ) true st pos a p c
    exact ⟨h1, h1 ▸ le_max_right _ _, h2, h2 ▸ le_max_right _ _⟩
  · intro events
    exact ⟨(fbinv_run (0.02 : ℚ) false events).1, (fbinv_run (0.05 : ℚ) true events).1⟩

/-! ## Controller ID generation (DS4Controller._generate_id,
DS5HidRawController._generate_id and the structurally identical evdev
variants) -/

/-- Decimal digits of a natural number as characters, most significant
first; structural fuel recursion (the fuel never runs out when it starts at
the number itself). -/
def natDecAux : Nat → Nat → List Char
  | 0, _ => []
  | _ + 1, 0 => []
  | fuel + 1, n + 1 =>
    natDecAux fuel ((n + 1) / 10) ++ [Char.ofNat (48 + (n + 1) % 10)]

/-- Decimal rendering of a natural number, as produced by a Python
f-string. -/
def natDec (n : Nat) : String := if n = 0 then "0" else ⟨natDecAux n n⟩

example : natDec 1 = "1" := by decide

example : natDec 10 = "10" := by decide

example : natDec 123 = "123" := by decide

/-- The sequence of IDs the generator tries: the family name itself, then
family:1, family:2, and so on. -/
def candidate (family : String) (k : Nat) : String :=
  if k = 0 then family else family ++ ":" ++ natDec k

/-- Loop body of _generate_id: while the current id is active, replace it
with family:magic and increment magic.  Python's unbounded while-loop is
given fuel; the caller supplies enough for the loop to reach a free id. -/
def generate_id_aux (active : List String) (family : String) :
    Nat → Nat → String → String
  | 0, _, id => id
  | fuel + 1, magic, id =>
    if id ∈ active then
      generate_id_aux active family fuel (magic + 1) (family ++ ":" ++ natDec magic)
    else id

/-- DS4Controller._generate_id and DS5HidRawController._generate_id with
the daemon's active-ID list as input: the first free name among family,
family:1, family:2, ...; one more round than there are active IDs always
suffices. -/
def generate_id (family : String) (active : List String) : String :=
  generate_id_aux active family (active.length + 1) 1 family

def charVal (c : Char) : Nat := c.toNat - 48

/-- Value of a most-significant-first decimal digit string. -/
def listVal (l : List Char) : Nat := l.foldl (fun a c => 10 * a + charVal c) 0

theorem listVal_append (xs : List Char) (c : Char) :
    listVal (xs ++ [c]) = 10 * listVal xs + charVal c := by
  unfold listVal
  rw [List.foldl_append]
  rfl

theorem charVal_ofNat_digit (d : Nat) (h : d < 10) :
    charVal (Char.ofNat (48 + d)) = d := by
  have hfin : ∀ d : Fin 10, charVal (Char.ofNat (48 + d.val)) = d.val := by decide
  exact hfin ⟨d, h⟩

theorem natDecAux_val : ∀ fuel n : Nat, n ≤ fuel → listVal (natDecAux fuel n) = n := by
  intro fuel
  induction fuel with
  | zero =>
    intro n h
    have : n = 0 := by omega
    subst this
    rfl
  | succ fuel ih =>
    intro n h
    match n with
    | 0 => rfl
    | m + 1 =>
      show listVal (natDecAux fuel ((m + 1) / 10) ++ [Char.ofNat (48 + (m + 1) % 10)])
        = m + 1
      rw [listVal_append, ih ((m + 1) / 10) (by omega),
        charVal_ofNat_digit _ (Nat.mod_lt _ (by norm_num))]
      omega

theorem natDec_val (n : Nat) : listVal (natDec n).data = n := by
  by_cases hn : n = 0
  · subst hn; decide
  · rw [natDec, if_neg hn]
    exact natDecAux_val n n le_rfl

theorem natDec_inj {a b : Nat} (h : natDec a = natDec b) : a = b := by
  have := congrArg (fun s => listVal s.data) h
  simpa [natDec_val] using this

theorem natDec_ne_nil (n : Nat) : (natDec n).data ≠ [] := by
  by_cases hn : n = 0
  · subst hn; decide
  · rw [natDec, if_neg hn]
    obtain ⟨m, rfl⟩ : ∃ m, n = m + 1 := ⟨n - 1, by omega⟩
    simp [natDecAux]

theorem candidate_inj (family : String) : Function.Injective (candidate family) := by
  intro i j h
  unfold candidate at h
  by_cases hi : i = 0 <;> by_cases hj : j = 0
  · omega
  · rw [if_pos hi, if_neg hj] at h
    have hlen := congrArg (fun s => s.data.length) h
    have hpos := List.length_pos.mpr (natDec_ne_nil j)
    simp [String.data_append] at hlen
  · rw [if_neg hi, if_pos hj] at h
    have hlen := congrArg (fun s => s.data.length) h
    have hpos := List.length_pos.mpr (natDec_ne_nil i)
    simp [String.data_append] at hlen
  · rw [if_neg hi, if_neg hj] at h
    have hd := congrArg String.data h
    simp only [String.data_append] at hd
    have := List.append_inj_right hd (by simp)
    exact natDec_inj (String.ext this)

theorem exists_candidate_not_mem (family : String) (active : List String) :
    ∃ k, k ≤ active.length ∧ candidate family k ∉ active := by
  by_contra hcon
  push_neg at hcon
  have hnodup : ((List.range (active.length + 1)).map (candidate family)).Nodup :=
    (List.nodup_range _).map (candidate_inj family)
  have hsub : ((List.range (active.length + 1)).map (candidate family)) ⊆ active := by
    intro s hs
    simp only [List.mem_map, List.mem_range] at hs
    obtain ⟨k, hk, rfl⟩ := hs
    exact hcon k (by omega)
  have hle := (List.subperm_of_subset hnodup hsub).length_le
  simp at hle

theorem generate_id_aux_not_mem (active : List String) (family : String) :
    ∀ fuel k : Nat, (∃ i, i < fuel ∧ candidate family (k + i) ∉ active) →
      generate_id_aux active family fuel (k + 1) (candidate family k) ∉ active := by
  intro fuel
  induction fuel with
  | zero =>
    rintro k ⟨i, hi, -⟩
    omega
  | succ fuel ih =>
    rintro k ⟨i, hi, hni⟩
    simp only [generate_id_aux]
    by_cases hmem : candidate family k ∈ active
    · rw [if_pos hmem]
      have h1 : family ++ ":" ++ natDec (k + 1) = candidate family (k + 1) := by
        rw [candidate, if_neg (by omega)]
      rw [h1]
      apply ih (k + 1)
      rcases Nat.eq_zero_or_pos i with rfl | hpos
      · exact absurd hmem (by simpa using hni)
      · exact ⟨i - 1, by omega, by rw [show k + 1 + (i - 1) = k + i by omega]; exact hni⟩
    · rw [if_neg hmem]
      exact hmem

theorem generate_id_aux_first (active : List String) (family : String) :
    ∀ fuel m k : Nat, m < fuel →
      (∀ j, j < m → candidate family (k + j) ∈ active) →
      candidate family (k + m) ∉ active →
      generate_id_aux active family fuel (k + 1) (candidate family k)
        = candidate family (k + m) := by
  intro fuel
  induction fuel with
  | zero => intro m k h; omega
  | succ fuel ih =>
    intro m k hm hall hfree
    simp only [generate_id_aux]
    by_cases hmem : candidate family k ∈ active
    · rw [if_pos hmem]
      have hm0 : m ≠ 0 := by
        rintro rfl
        exact hfree (by simpa using hmem)
      have h1 : family ++ ":" ++ natDec (k + 1) = candidate family (k + 1) := by
        rw [candidate, if_neg (by omega)]
      have hrec := ih (m - 1) (k + 1) (by omega)
        (fun j hj => by
          have := hall (j + 1) (by omega)
          rwa [show k + (j + 1) = k + 1 + j by omega] at this)
        (by rwa [show k + 1 + (m - 1) = k + m by omega])
      rw [h1, hrec]
      congr 1
      omega
    · rw [if_neg hmem]
      have hm0 : m = 0 := by
        by_contra hm0
        exact hmem (by simpa using hall 0 (by omega))
      rw [hm0, Nat.add_zero]

theorem candidate_zero (family : String) : candidate family 0 = family := by
  rw [candidate, if_pos rfl]

theorem generate_id_not_mem (family : String) (active : List String) :
    generate_id family active ∉ active := by
  obtain ⟨k, hk, hfree⟩ := exists_candidate_not_mem family active
  unfold generate_id
  rw [← candidate_zero family]
  exact generate_id_aux_not_mem active family (active.length + 1) 0
    ⟨k, by omega, by simpa using hfree⟩

/-- N same-family controllers registered in sequence, each one added to the
daemon's active IDs, starting from an initial active list. -/
def register_seq (family : String) (init : List String) : Nat → List String
  | 0 => init
  | n + 1 =>
    generate_id family (register_seq family init n) :: register_seq family init n

theorem register_seq_length (family : String) (init : List String) :
    ∀ n : Nat, (register_seq family init n).length = n + init.length := by
  intro n
  induction n with
  | zero => simp [register_seq]
  | succ n ih => simp [register_seq, ih]; omega

theorem register_seq_spec (family : String) (init : List String)
    (hinit : ∀ k : Nat, candidate family k ∉ init) :
    ∀ n : Nat, generate_id family (register_seq family init n) = candidate family n ∧
      (∀ j : Nat, candidate family j ∈ register_seq family init n ↔ j < n) := by
  intro n
  induction n with
  | zero =>
    constructor
    · unfold generate_id
      rw [← candidate_zero family]
      have h := generate_id_aux_first (register_seq family init 0) family
        ((register_seq family init 0).length + 1) 0 0 (by omega)
        (fun j hj => absurd hj (by omega))
        (by simpa using hinit 0)
      simpa using h
    · intro j
      show candidate family j ∈ init ↔ j < 0
      simp [hinit j]
  | succ n ih =>
    obtain ⟨hgen, hmem⟩ := ih
    have hactive : register_seq family init (n + 1)
        = candidate family n :: register_seq family init n := by
      show generate_id family (register_seq family init n) :: _ = _
      rw [hgen]
    have hmem' : ∀ j, candidate family j ∈ register_seq family init (n + 1) ↔ j < n + 1 := by
      intro j
      rw [hactive, List.mem_cons]
      constructor
      · rintro (hj | hj)
        · have := candidate_inj family hj
          omega
        · have := (hmem j).mp hj
          omega
      · intro hj
        rcases Nat.lt_or_ge j n with hlt | hge
        · exact Or.inr ((hmem j).mpr hlt)
        · have : j = n := by omega
          exact Or.inl (by rw [this])
    refine ⟨?_, hmem'⟩
    unfold generate_id
    rw [← candidate_zero family]
    have h := generate_id_aux_first (register_seq family init (n + 1)) family
      ((register_seq family init (n + 1)).length + 1) (n + 1) 0
      (by rw [register_seq_length]; omega)
      (fun j hj => by simpa using (hmem' j).mpr hj)
      (by simpa using fun hc => absurd ((hmem' (n + 1)).mp hc) (by omega))
    simpa using h

/-- C5 counterexample: three controllers register (getting ds4, ds4:1,
ds4:2), the first two disconnect, and a fourth registers.  The two
controllers now registered concurrently hold, in order of construction, the
IDs ds4:2 and ds4, not the claimed ds4 and ds4:1; the exact-set-in-order
guarantee does not survive removal/recreation in between. -/
theorem C5_generate_id_counterexample :
    generate_id "ds4" [] = "ds4" ∧
    generate_id "ds4" ["ds4"] = "ds4:1" ∧
    generate_id "ds4" ["ds4:1", "ds4"] = "ds4:2" ∧
    generate_id "ds4" ["ds4:2"] = "ds4" ∧
    ("ds4:2" ≠ "ds4" ∧ ("ds4" : String) ≠ "ds4:1") := by
  decide

/-- C5 (amended): every ID returned by _generate_id avoids the daemon's
active IDs, and when N same-family controllers register in sequence with no
interleaved removals, starting from an active list containing no
family-pattern IDs, they receive exactly family, family:1, ...,
family:(N-1) in order of construction (for the DS4 family these render as
ds4, ds4:1, ds4:2, ...; analogously for ds5). -/
theorem C5_generate_id_ids (family : String) (active init : List String)
    (hinit : ∀ k : Nat, candidate family k ∉ init) (n : Nat) :
    generate_id family active ∉ active ∧
    generate_id family (register_seq family init n) = candidate family n ∧
    (candidate "ds4" 0 = "ds4" ∧ candidate "ds4" 1 = "ds4:1" ∧
      candidate "ds4" 2 = "ds4:2" ∧ candidate "ds5" 1 = "ds5:1") :=
  ⟨generate_id_not_mem family active,
    (register_seq_spec family init hinit n).1,
    by decide, by decide, by decide, by decide⟩

/-- Witness for C5 (amended) at a concrete family and initial lists. -/
theorem C5_generate_id_ids_witness :
    (∀ k : Nat, candidate "ds4" k ∉ ([] : List String)) ∧
    (generate_id "ds4" ["sc", "ds5"] ∉ (["sc", "ds5"] : List String) ∧
      generate_id "ds4" (register_seq "ds4" [] 2) = candidate "ds4" 2 ∧
      (candidate "ds4" 0 = "ds4" ∧ candidate "ds4" 1 = "ds4:1" ∧
        candidate "ds4" 2 = "ds4:2" ∧ candidate "ds5" 1 = "ds5:1")) :=
  ⟨fun _ => List.not_mem_nil _,
    C5_generate_id_ids "ds4" ["sc", "ds5"] [] (fun _ => List.not_mem_nil _) 2⟩

/-! ## Lightbar configuration (DS5Controller.configure and the identical
DS5HidRawController.configure) -/

/-- ICON_COLORS: the 7-entry lightbar palette (green, blue, red, yellow,
cyan, orange, magenta); the float literal 0.4 of the orange entry denotes
the exact rational 2/5 (the one-ulp float representation error cannot move
any scaled channel across an integer boundary, every other literal being
exact). -/
def ICON_COLORS : List (ℚ × ℚ × ℚ) :=
  [(0, 1, 0), (0, 0, 1), (1, 0, 0), (1, 1, 0), (0, 1, 1), (1, 2/5, 0), (1, 0, 1)]

/-- Split a character list at the last occurrence of sep: the parts before
and after that occurrence, or none when sep does not occur. -/
def splitLast (sep : Char) : List Char → Option (List Char × List Char)
  | [] => none
  | c :: rest =>
    match splitLast sep rest with
    | some (a, b) => some (c :: a, b)
    | none => if c = sep then some ([], rest) else none

/-- Python s.rsplit(sep, 1): one part when sep does not occur, otherwise
the parts before and after its last occurrence. -/
def rsplit1 (sep : Char) (s : List Char) : List (List Char) :=
  match splitLast sep s with
  | some (a, b) => [a, b]
  | none => [s]

example : rsplit1 '-' "ds5-2".data = ["ds5".data, "2".data] := by decide

example : rsplit1 '.' "noext".data = ["noext".data] := by decide

theorem splitLast_none {sep : Char} :
    ∀ {s : List Char}, splitLast sep s = none → sep ∉ s := by
  intro s
  induction s with
  | nil => intro _; simp
  | cons c rest ih =>
    intro h
    rcases hrec : splitLast sep rest with - | ⟨a, b⟩
    · simp only [splitLast, hrec] at h
      by_cases hc : c = sep
      · rw [if_pos hc] at h
        exact absurd h (by simp)
      · intro hmem
        rcases List.mem_cons.mp hmem with heq | hmem
        · exact hc heq.symm
        · exact ih hrec hmem
    · simp only [splitLast, hrec] at h
      exact absurd h (by simp)

theorem splitLast_some {sep : Char} :
    ∀ {s a b : List Char}, splitLast sep s = some (a, b) →
      sep ∉ b ∧ s = a ++ sep :: b := by
  intro s
  induction s with
  | nil => intro a b h; exact absurd h (by simp [splitLast])
  | cons c rest ih =>
    intro a b h
    rcases hrec : splitLast sep rest with - | ⟨a2, b2⟩
    · simp only [splitLast, hrec] at h
      by_cases hc : c = sep
      · rw [if_pos hc] at h
        simp only [Option.some.injEq, Prod.mk.injEq] at h
        obtain ⟨rfl, rfl⟩ := h
        refine ⟨splitLast_none hrec, ?_⟩
        rw [hc]
        rfl
      · rw [if_neg hc] at h
        exact absurd h (by simp)
    · simp only [splitLast, hrec, Option.some.injEq, Prod.mk.injEq] at h
      obtain ⟨rfl, rfl⟩ := h
      obtain ⟨hn, hs⟩ := ih hrec
      refine ⟨hn, ?_⟩
      rw [List.cons_append, hs]

theorem splitLast_isSome_of_mem {sep : Char} {s : List Char} (h : sep ∈ s) :
    ∃ a b, splitLast sep s = some (a, b) := by
  rcases hs : splitLast sep s with - | ⟨a, b⟩
  · exact absurd h (splitLast_none hs)
  · exact ⟨a, b, rfl⟩

/-- The character after the last dash contains no dash. -/
theorem rsplit1_getLast_no_sep (sep : Char) (s : List Char) :
    sep ∉ (rsplit1 sep s).getLast?.getD [] := by
  unfold rsplit1
  rcases hs : splitLast sep s with - | ⟨a, b⟩
  · simpa using splitLast_none hs
  · simpa using (splitLast_some hs).1

def is_space (c : Char) : Bool :=
  c == ' ' || c == '\t' || c == '\n' || c == '\r' ||
    c == Char.ofNat 11 || c == Char.ofNat 12

/-- Valid continuation of a Python integer literal: digits with single
underscores between digits. -/
def valid_uint_tail : List Char → Bool
  | [] => true
  | '_' :: [] => false
  | '_' :: c :: rest => c.isDigit && valid_uint_tail (c :: rest)
  | c :: rest => c.isDigit && valid_uint_tail rest

def valid_uint : List Char → Bool
  | [] => false
  | c :: rest => c.isDigit && valid_uint_tail rest

def uint_val (l : List Char) : Nat :=
  listVal (l.filter (fun c => c != '_'))

/-- Python int(str): strip ASCII whitespace, allow one sign, then decimal
digits with underscore separators; none models ValueError. -/
def pyint (s : List Char) : Option Int :=
  let t := ((s.dropWhile is_space).reverse.dropWhile is_space).reverse
  match t with
  | [] => none
  | c :: rest =>
    if c = '-' then (if valid_uint rest then some (-(uint_val rest : Int)) else none)
    else if c = '+' then (if valid_uint rest then some ((uint_val rest : Int)) else none)
    else (if valid_uint (c :: rest) then some ((uint_val (c :: rest) : Int)) else none)

example : pyint "2".data = some 2 := by decide

example : pyint " 10 ".data = some 10 := by decide

example : pyint "-3".data = some (-3) := by decide

example : pyint "1_2".data = some 12 := by decide

example : pyint "x2".data = none := by decide

example : pyint "".data = none := by decide

/-- A dash-free string never parses to a negative integer. -/
theorem pyint_nonneg {s : List Char} (hs : '-' ∉ s) {k : Int}
    (h : pyint s = some k) : 0 ≤ k := by
  unfold pyint at h
  have ht : '-' ∉ ((s.dropWhile is_space).reverse.dropWhile is_space).reverse := by
    intro hmem
    rw [List.mem_reverse] at hmem
    have h2 := List.dropWhile_subset is_space hmem
    rw [List.mem_reverse] at h2
    exact hs (List.dropWhile_subset is_space h2)
  rcases hm : ((s.dropWhile is_space).reverse.dropWhile is_space).reverse with - | ⟨c, rest⟩
  · rw [hm] at h
    exact absurd h (by simp)
  · rw [hm] at h ht
    simp only [] at h
    have hc : c ≠ '-' := fun hcontra => ht (hcontra ▸ List.mem_cons_self _ _)
    rw [if_neg hc] at h
    split at h <;> split at h <;> simp at h <;> omega

/-- DS5Controller.configure / DS5HidRawController.configure: pick the base
color from ICON_COLORS by the numeric suffix after the final dash of the
icon filename's basename (keeping blue on a parse failure or an index at or
beyond the palette length; Python would index from the end on a negative
value and raise IndexError below -7, branches kept for fidelity), scale
each channel by led_level / 100 into a 0-255 byte, and stage the lightbar
record under the key lightbar.  An icon string without a dot makes the
two-element unpacking of rsplit raise ValueError, modelled as the error
case. -/
def configure (icon : Option String) (led_level : ℚ) :
    Except String (String × (Int × Int × Int)) :=
  let base : ℚ × ℚ × ℚ := (0, 0, 1)
  let colorRes : Except String (ℚ × ℚ × ℚ) :=
    match icon with
    | none => Except.ok base
    | some ic =>
      if ic = "" then Except.ok base
      else
        match rsplit1 '.' ic.data with
        | [basename, _ext] =>
          let parts := rsplit1 '-' basename
          let raw_idx := parts.getLast?.getD []
          match pyint raw_idx with
          | none => Except.ok base
          | some icon_idx =>
            if icon_idx < (ICON_COLORS.length : Int) then
              if 0 ≤ icon_idx then
                Except.ok (ICON_COLORS.getD icon_idx.toNat base)
              else if 0 ≤ icon_idx + (ICON_COLORS.length : Int) then
                Except.ok
                  (ICON_COLORS.getD (icon_idx + (ICON_COLORS.length : Int)).toNat base)
              else Except.error "IndexError: list index out of range"
            else Except.ok base
        | _ => Except.error "ValueError: not enough values to unpack"
  match colorRes with
  | Except.error e => Except.error e
  | Except.ok lightbar_color =>
    let led_level_norm := led_level / 100
    Except.ok ("lightbar",
      (qtrunc (lightbar_color.1 * led_level_norm * 255),
        qtrunc (lightbar_color.2.1 * led_level_norm * 255),
        qtrunc (lightbar_color.2.2 * led_level_norm * 255)))

/-- C9 counterexample: an icon filename without a dot makes configure raise
ValueError from the two-element unpacking of rsplit, so configure does not
return for every icon string. -/
theorem C9_configure_counterexample :
    configure (some "noext") 100
      = Except.error "ValueError: not enough values to unpack" := by
  rfl

/-- Claim-side color rule: the palette entry indexed by the numeric suffix
after the final dash of the basename when it parses inside the palette
range, blue otherwise. -/
def spec_color (icon : Option String) : ℚ × ℚ × ℚ :=
  match icon with
  | none => (0, 0, 1)
  | some ic =>
    if ic = "" then (0, 0, 1)
    else
      match rsplit1 '.' ic.data with
      | [basename, _ext] =>
        match pyint ((rsplit1 '-' basename).getLast?.getD []) with
        | some k =>
          if 0 ≤ k ∧ k < (ICON_COLORS.length : Int) then
            ICON_COLORS.getD k.toNat (0, 0, 1)
          else (0, 0, 1)
        | none => (0, 0, 1)
      | _ => (0, 0, 1)

/-- C9 (amended): for icon None, the empty icon string, and every icon
string containing a dot, configure returns without raising and stages under
the key lightbar the palette color selected by the numeric suffix (blue on
any non-numeric or out-of-range suffix), each channel scaled by
led_level / 100 and truncated to a 0-255 byte.  Icon strings without a dot
raise ValueError (see the counterexample). -/
theorem C9_configure_no_raise (icon : Option String) (led_level : ℚ)
    (h : icon = none ∨ icon = some "" ∨ ∃ s, icon = some s ∧ '.' ∈ s.data) :
    configure icon led_level
      = Except.ok ("lightbar",
          (qtrunc ((spec_color icon).1 * (led_level / 100) * 255),
            qtrunc ((spec_color icon).2.1 * (led_level / 100) * 255),
            qtrunc ((spec_color icon).2.2 * (led_level / 100) * 255))) := by
  rcases h with rfl | rfl | ⟨s, rfl, hdot⟩
  · rfl
  · rfl
  · by_cases hempty : s = ""
    · subst hempty
      simp at hdot
    · obtain ⟨a, b, hsplit⟩ := splitLast_isSome_of_mem hdot
      have hr : rsplit1 '.' s.data = [a, b] := by
        unfold rsplit1
        rw [hsplit]
      have hnodash : '-' ∉ (rsplit1 '-' a).getLast?.getD [] :=
        rsplit1_getLast_no_sep '-' a
      simp only [configure, spec_color, hr, if_neg hempty]
      rcases hp : pyint ((rsplit1 '-' a).getLast?.getD []) with - | k
      · rfl
      · have hnn : (0 : Int) ≤ k := pyint_nonneg hnodash hp
        simp only [if_pos hnn]
        by_cases hlt : k < (ICON_COLORS.length : Int)
        · rw [if_pos hlt, if_pos ⟨hnn, hlt⟩]
        · rw [if_neg hlt, if_neg (fun hcon => hlt hcon.2)]

/-- Witness for C9 (amended) at a concrete icon filename. -/
theorem C9_configure_no_raise_witness :
    configure (some "ds5-2.png") 100
      = Except.ok ("lightbar",
          (qtrunc ((spec_color (some "ds5-2.png")).1 * ((100 : ℚ) / 100) * 255),
            qtrunc ((spec_color (some "ds5-2.png")).2.1 * ((100 : ℚ) / 100) * 255),
            qtrunc ((spec_color (some "ds5-2.png")).2.2 * ((100 : ℚ) / 100) * 255))) :=
  C9_configure_no_raise (some "ds5-2.png") 100
    (Or.inr (Or.inr ⟨"ds5-2.png", rfl, by decide⟩))
